import Mathlib

/-!
# stooge: the webhook request callback and the serving loop

A shallow embedding of `src/stooge.c`.  The calls the program makes to the
operating system and to libmicrohttpd are recorded as a trace of events; what
those calls return is supplied by an environment, so that every theorem
quantifies over all the answers the outside world can give.
-/

namespace Stooge

/-! ## Constants of the headers the program includes -/

/-- Value of `MHD_YES` in microhttpd.h. -/
def MHD_YES : Int := 1

/-- Value of `MHD_NO` in microhttpd.h. -/
def MHD_NO : Int := 0

/-- Value of `MHD_HTTP_OK` in microhttpd.h. -/
def MHD_HTTP_OK : Nat := 200

/-- Value of `EXIT_SUCCESS` in stdlib.h. -/
def EXIT_SUCCESS : Int := 0

/-- Value of `EXIT_FAILURE` in stdlib.h. -/
def EXIT_FAILURE : Int := 1

/-- Value of `EINTR` in errno.h. -/
def EINTR : Int := 4

/-- Number of slots of the arrays `cmds` and `pids` of `struct handler_data`. -/
def NSLOTS : Nat := 32

/-! ## Data model -/

/-- The `struct handler_data`: `char *cmds[32]`, `pid_t pids[32]`, `int ncmds`.
The two arrays are lists; a state of the C program has 32 entries in each
(see `handler_data.wf`). -/
structure handler_data where
  cmds : List String
  pids : List Int
  ncmds : Int
deriving DecidableEq, Repr

/-- The handler states whose array accesses in `request_cb` stay inside the
two 32-slot arrays: both arrays have their 32 slots and `ncmds` is at most 32. -/
def handler_data.wf (hd : handler_data) : Prop :=
  hd.cmds.length = NSLOTS ∧ hd.pids.length = NSLOTS ∧ hd.ncmds ≤ (NSLOTS : Int)

instance (hd : handler_data) : Decidable hd.wf := by
  unfold handler_data.wf; infer_instance

/-- A `struct MHD_Response *`: `none` is the null pointer. -/
abbrev Response := Option Nat

/-- One call made by `request_cb`, with what it returned in this process.
`fork i r`: the call `fork()` of loop iteration `i` returned `r`.
`execl i path args r`: the call `execl(path, args..., NULL)` of iteration `i`;
`r = none` when the call did not return (the process image was replaced). -/
inductive Event where
  | fork (i : Nat) (r : Int)
  | perror (s : String)
  | execl (i : Nat) (path : String) (args : List String) (r : Option Int)
  | create_response (size : Nat) (res : Response)
  | queue_response (status : Nat) (res : Response)
  | destroy_response (res : Response)
deriving DecidableEq, Repr

/-- What the outside world answers to one process running `request_cb`:
`fork i` is the value `fork()` returns to this process in iteration `i`
(a positive pid or -1 in the process that called it, 0 in the new process),
`execl i` is `none` when the `execl` of iteration `i` replaces the image and
the value it returns otherwise, `response` is what
`MHD_create_response_from_buffer` returns. -/
structure Env where
  fork : Nat → Int
  execl : Nat → Option Int
  response : Response

/-- A process inside the loop of `request_cb`: the handler state, the calls made
so far and whether a successful `execl` has replaced the program. -/
structure Proc where
  hd : handler_data
  trace : List Event
  replaced : Bool
deriving DecidableEq, Repr

/-! ## `request_cb` -/

/-- Lines 89-90: `if ((hd->pids[i] = fork()) == -1) perror("fork");`, for an
index `i` inside the array `pids`. -/
def fork_step (env : Env) (i : Nat) (p : Proc) : Proc :=
  let r := env.fork i
  { p with
    hd := { p.hd with pids := p.hd.pids.set i r }
    trace := p.trace ++ Event.fork i r :: (if r = -1 then [Event.perror "fork"] else []) }

/-- Lines 92-95: `if (hd->pids[i] == 0) { if (execl("/bin/sh", "sh", "-c",
hd->cmds[i], NULL) == -1) perror("exec"); }`, for an index `i` inside the arrays
`pids` and `cmds`. -/
def exec_step (env : Env) (i : Nat) (p : Proc) : Proc :=
  if p.hd.pids.getD i 0 = 0 then
    let call := Event.execl i "/bin/sh" ["sh", "-c", p.hd.cmds.getD i ""] (env.execl i)
    match env.execl i with
    | none => { p with trace := p.trace ++ [call], replaced := true }
    | some r =>
      { p with trace := p.trace ++ call :: (if r = -1 then [Event.perror "exec"] else []) }
  else p

/-- Lines 88-96: `for (i = 0; i < hd->ncmds; ++i) { ... }`, entered at iteration
`i` with `rem = hd->ncmds - i` iterations left (the loop test `i < hd->ncmds` holds
exactly when `rem` is not zero; the body never writes `ncmds`).  A process whose
image has been replaced runs no further iteration. -/
def for_loop (env : Env) : Nat → Nat → Proc → Proc
  | 0, _, p => p
  | rem + 1, i, p =>
    let p2 := exec_step env i (fork_step env i p)
    if p2.replaced then p2 else for_loop env rem (i + 1) p2

/-- Lines 98-103, the label `respond`: create the empty response, queue it with
status 200, destroy it. -/
def respond (env : Env) : List Event :=
  [Event.create_response 0 env.response,
   Event.queue_response MHD_HTTP_OK env.response,
   Event.destroy_response env.response]

/-- Outcome of one call of `request_cb` in one process: `ret = none` when the
process image was replaced before the function returned. -/
structure Result where
  ret : Option Int
  hd : handler_data
  trace : List Event
deriving DecidableEq, Repr

/-- The function `request_cb` (lines 71-104) for handler state `hd` and request
method `method`. -/
def request_cb (env : Env) (hd : handler_data) (method : String) : Result :=
  if method ≠ "POST" then ⟨some MHD_NO, hd, []⟩
  else
    let p : Proc :=
      if hd.ncmds = 0 then ⟨hd, [], false⟩
      else for_loop env hd.ncmds.toNat 0 ⟨hd, [], false⟩
    if p.replaced then ⟨none, p.hd, p.trace⟩
    else ⟨some MHD_YES, p.hd, p.trace ++ respond env⟩

/-! ## Reading a trace -/

/-- The events of loop iteration `i` in a process that sees the answers `env`,
for the command array `cmds`: the `fork` call, its diagnostic when it returned
-1, and, when it returned 0, the `execl` call with its diagnostic when that
returned -1. -/
def iter_events (env : Env) (cmds : List String) (i : Nat) : List Event :=
  (Event.fork i (env.fork i) :: (if env.fork i = -1 then [Event.perror "fork"] else [])) ++
  (if env.fork i = 0 then
    Event.execl i "/bin/sh" ["sh", "-c", cmds.getD i ""] (env.execl i) ::
      (if env.execl i = some (-1) then [Event.perror "exec"] else [])
   else [])

/-- Iteration `i` ends the C program of this process: `fork` returned 0 and
`execl` replaced the image. -/
def execs_at (env : Env) (i : Nat) : Prop := env.fork i = 0 ∧ env.execl i = none

instance (env : Env) (i : Nat) : Decidable (execs_at env i) := by
  unfold execs_at; infer_instance

/-- The events of iteration `i` in a process to which `fork` did not return 0:
the `fork` call and its diagnostic when it failed. -/
def spawn_events (env : Env) (i : Nat) : List Event :=
  Event.fork i (env.fork i) :: (if env.fork i = -1 then [Event.perror "fork"] else [])

/-- Whether an event is a call of `fork`. -/
def Event.is_fork : Event → Bool
  | Event.fork _ _ => true
  | _ => false

/-- Whether an event is a call of `execl`. -/
def Event.is_execl : Event → Bool
  | Event.execl _ _ _ _ => true
  | _ => false

/-- Whether an event is a call of `MHD_queue_response`. -/
def Event.is_queue : Event → Bool
  | Event.queue_response _ _ => true
  | _ => false

/-- The loop iterations in which the process created a child. -/
def created_at : List Event → List Nat
  | [] => []
  | Event.fork i r :: t => if 0 < r then i :: created_at t else created_at t
  | _ :: t => created_at t

/-! ## The processes one POST gives rise to -/

/-- The view of the process created by the `fork` of iteration `j`: in it that
call returned 0. -/
def as_child (env : Env) (j : Nat) : Env :=
  { env with fork := fun k => if k = j then 0 else env.fork k }

/-- Number of processes created, directly or through descendants, by a process
that runs the loop of `request_cb` from iteration `i` on and sees `env`.  The
process created in iteration `j` is a copy that continues in iteration `j` with
`fork` having returned 0; `w path` is what the outside world answers to the
process reached from the server through the iterations `path` (innermost
first).  `depth` bounds the nesting, which is at most `ncmds`; a smaller bound
leaves processes out of the count.  The copy starts from `hd` as well: the loop
reads `pids[j]` only after writing it, so the pids stored before the copy was
made have no effect. -/
def creations (w : List Nat → Env) (hd : handler_data) :
    Nat → List Nat → Nat → Env → Nat
  | 0, _, _, _ => 0
  | depth + 1, path, i, env =>
    let own := (for_loop env (hd.ncmds.toNat - i) i ⟨hd, [], false⟩).trace
    ((created_at own).map fun j =>
      1 + creations w hd depth (j :: path) j (as_child (w (j :: path)) j)).sum

/-! ## `main`: the option loop -/

/-- One answer of `getopt_long` in the option loop of `main` (line 129), with
the value of `optarg` where the option takes an argument; `unknown` is any
character the `switch` has no case for. -/
inductive Opt where
  | help
  | version
  | port (optarg : String)
  | dir (optarg : String)
  | cmd (optarg : String)
  | unknown
deriving DecidableEq, Repr

/-- The variables of `main` the option loop writes, and `stores`, the index of
every store `hd.cmds[...] = ...` it has performed, in order. -/
structure Config where
  hd : handler_data
  port : Int
  dir : Option String
  stores : List Int
deriving DecidableEq, Repr

/-- The `switch` of lines 130-150 for one option.  `Except.error c` is the call
`exit(c)` made by `do_help` and `do_version`.  Case 'e' is
`hd.cmds[hd.ncmds++] = strdup(optarg)`: the store goes to index `ncmds`, whatever
its value, and `ncmds` is incremented; a store whose index is outside the list
leaves the list as it is and shows in `stores` only. -/
def opt_step (atoi : String → Int) (c : Config) : Opt → Except Int Config
  | Opt.help => Except.error 0
  | Opt.version => Except.error 0
  | Opt.port a => Except.ok { c with port := atoi a }
  | Opt.dir a => Except.ok { c with dir := some a }
  | Opt.cmd a =>
    Except.ok { c with
      hd := { c.hd with cmds := c.hd.cmds.set c.hd.ncmds.toNat a, ncmds := c.hd.ncmds + 1 }
      stores := c.stores ++ [c.hd.ncmds] }
  | Opt.unknown => Except.ok c

/-- The loop of lines 129-151 over the answers of `getopt_long`, the last of
which (-1) ends it (the answer is kept in a `char`, taken to be signed, so that
it compares equal to -1). -/
def opt_loop (atoi : String → Int) : List Opt → Config → Except Int Config
  | [], c => Except.ok c
  | o :: os, c =>
    match opt_step atoi c o with
    | Except.error code => Except.error code
    | Except.ok c1 => opt_loop atoi os c1

/-! ## `main`: setup, serving loop, teardown -/

/-- One call made by `main` after the option loop. -/
inductive MainEvent where
  | open_dot
  | chdir (dir : String)
  | sigaction
  | sigprocmask
  | start_daemon (port : Int)
  | get_fdset
  | pselect (ret : Int) (errno : Int)
  | run_from_select
  | perror (s : String)
  | message (s : String)
  | stop_daemon
  | fchdir
deriving DecidableEq, Repr

/-- One return of `pselect` (line 197): its value, `errno`, and whether
`signal_cb` ran while the call was waiting (SIGINT is blocked everywhere else,
line 179, so `done` changes only there). -/
structure Wait where
  ret : Int
  errno : Int
  sigint : Bool
deriving DecidableEq, Repr

/-- What the outside world answers to `main`: the values returned by `atoi`,
`open`, `chdir`, `sigaction`, `sigprocmask`, `MHD_start_daemon` (`none` is NULL)
and `fchdir`, the value of `done` when the loop is entered, and the successive
returns of `pselect`. -/
structure MainEnv where
  atoi : String → Int
  open_ret : Int
  chdir_ret : Int
  sigaction_ret : Int
  sigprocmask_ret : Int
  daemon : Option Nat
  done0 : Bool
  waits : List Wait
  fchdir_ret : Int

/-- The loop of lines 191-204, `while (!done) { ... }`, entered with the flag
`done` and the remaining returns of `pselect`.  `none`: the returns supplied are
used up and the loop is still waiting.  Otherwise the flag and the calls made
when the loop is left. -/
def serve : List Wait → Bool → List MainEvent → Option (Bool × List MainEvent)
  | [], done, tr => if done then some (done, tr) else none
  | w :: ws, done, tr =>
    if done then some (done, tr)
    else
      let tr1 := tr ++ [MainEvent.get_fdset, MainEvent.pselect w.ret w.errno]
      if w.ret = -1 then
        some (w.sigint, tr1 ++ (if w.errno ≠ EINTR then [MainEvent.perror "pselect"] else []))
      else serve ws w.sigint (tr1 ++ [MainEvent.run_from_select])

/-- Outcome of `main`: the exit status (`none` while the serving loop is still
waiting) and the calls made after the option loop. -/
structure MainResult where
  exit : Option Int
  trace : List MainEvent
deriving DecidableEq, Repr

/-- Lines 212-221, the labels `popd` and `done`: change back to the saved
directory when one was given, then `return res`. -/
def popd (env : MainEnv) (dir : Option String) (res : Int) (tr : List MainEvent) :
    MainResult :=
  match dir with
  | some _ =>
    if env.fchdir_ret = -1 then ⟨some res, tr ++ [MainEvent.fchdir, MainEvent.perror "fchdir"]⟩
    else ⟨some res, tr ++ [MainEvent.fchdir]⟩
  | none => ⟨some res, tr⟩

/-- Lines 168-210: signal setup, daemon start, serving loop, daemon stop.  `res`
is `EXIT_FAILURE` until the loop has been left. -/
def serve_phase (env : MainEnv) (c : Config) (tr : List MainEvent) : MainResult :=
  if env.sigaction_ret = -1 then
    popd env c.dir EXIT_FAILURE (tr ++ [MainEvent.sigaction, MainEvent.perror "sigaction"])
  else if env.sigprocmask_ret = -1 then
    popd env c.dir EXIT_FAILURE
      (tr ++ [MainEvent.sigaction, MainEvent.sigprocmask, MainEvent.perror "sigprocmask"])
  else
    let tr1 := tr ++ [MainEvent.sigaction, MainEvent.sigprocmask, MainEvent.start_daemon c.port]
    match env.daemon with
    | none =>
      popd env c.dir EXIT_FAILURE
        (tr1 ++ [MainEvent.message "MHD_start_daemon: unknown failure\n"])
    | some _ =>
      match serve env.waits env.done0 tr1 with
      | none => ⟨none, tr1⟩
      | some (_, tr2) =>
        popd env c.dir EXIT_SUCCESS
          (tr2 ++ [MainEvent.message "\x08\x08Caught SIGINT, shutting down...\n",
                   MainEvent.stop_daemon])

/-- The configuration `main` starts the option loop with (lines 123-127), for
the content `hd0` of the uninitialised local `hd`. -/
def config0 (hd0 : handler_data) : Config := ⟨{ hd0 with ncmds := 0 }, 5000, none, []⟩

/-- The function `main` (lines 112-222) for the answers `opts` of `getopt_long`;
`hd0` is the content of the local `hd` before line 124 sets `hd.ncmds = 0`. -/
def main (env : MainEnv) (hd0 : handler_data) (opts : List Opt) : MainResult :=
  match opt_loop env.atoi opts (config0 hd0) with
  | Except.error code => ⟨some code, []⟩
  | Except.ok c =>
    match c.dir with
    | some d =>
      if env.open_ret = -1 then
        ⟨some EXIT_FAILURE, [MainEvent.open_dot, MainEvent.perror "open"]⟩
      else if env.chdir_ret = -1 then
        ⟨some EXIT_FAILURE, [MainEvent.open_dot, MainEvent.chdir d, MainEvent.perror "chdir"]⟩
      else serve_phase env c [MainEvent.open_dot, MainEvent.chdir d]
    | none => serve_phase env c []

/-! ## Sample states and answers -/

/-- A handler state with the two commands `git pull` and `make`. -/
def hd_two : handler_data :=
  ⟨"git pull" :: "make" :: List.replicate 30 "", List.replicate 32 0, 2⟩

/-- A handler state with no command. -/
def hd_none : handler_data := ⟨List.replicate 32 "", List.replicate 32 0, 0⟩

/-- The server process when every `fork` succeeds (pids 100, 101, ...). -/
def env_server : Env := ⟨fun i => 100 + i, fun _ => none, some 1⟩

/-- The server process when the `fork` of iteration 0 fails. -/
def env_fork_fails : Env := ⟨fun i => if i = 0 then -1 else 100 + i, fun _ => none, some 1⟩

/-- The server process when the response cannot be allocated. -/
def env_no_memory : Env := ⟨fun i => 100 + i, fun _ => none, none⟩

/-- The process created in iteration 0, whose `execl` succeeds. -/
def env_child : Env := ⟨fun i => if i = 0 then 0 else 100 + i, fun _ => none, some 1⟩

/-- The process created in iteration 0, whose `execl` fails. -/
def env_child_exec_fails : Env :=
  ⟨fun i => if i = 0 then 0 else 100 + i, fun _ => some (-1), some 1⟩

/-- A world in which every `fork` succeeds and every `execl` fails. -/
def world_exec_fails : List Nat → Env := fun _ => ⟨fun i => 100 + i, fun _ => some (-1), some 1⟩

/-- Answers under which every setup call of `main` succeeds, the first wait
reports a ready descriptor, and SIGINT arrives during the second wait. -/
def menv_sigint : MainEnv :=
  ⟨fun _ => 8080, 3, 0, 0, 0, some 1, false, [⟨1, 0, false⟩, ⟨-1, EINTR, true⟩], 0⟩

/-- Answers under which `MHD_start_daemon` returns NULL. -/
def menv_no_daemon : MainEnv :=
  ⟨fun _ => 8080, 3, 0, 0, 0, none, false, [], 0⟩

/-- A return of `pselect` interrupted by a signal whose handler is not
`signal_cb`: -1 with `errno = EINTR`, the flag `done` not set. -/
def wait_other_signal : Wait := ⟨-1, EINTR, false⟩

/-- A return of `pselect` reporting one ready descriptor. -/
def wait_ready : Wait := ⟨1, 0, false⟩

/-- Some setup call of `main` fails: with a directory given, `open` or `chdir`;
`sigaction`; `sigprocmask`; or `MHD_start_daemon` (which returns NULL). -/
def setup_fails (env : MainEnv) (c : Config) : Prop :=
  (c.dir ≠ none ∧ (env.open_ret = -1 ∨ env.chdir_ret = -1)) ∨
  env.sigaction_ret = -1 ∨ env.sigprocmask_ret = -1 ∨ env.daemon = none

instance (env : MainEnv) (c : Config) : Decidable (setup_fails env c) := by
  unfold setup_fails; infer_instance

/-- Number of `-e`/`--cmd` options among the answers of `getopt_long`. -/
def count_cmds : List Opt → Nat
  | [] => 0
  | Opt.cmd _ :: os => count_cmds os + 1
  | _ :: os => count_cmds os


/-! ## Lemmas on the loop of `request_cb` -/

theorem getD_set_self (l : List Int) (i : Nat) (r d : Int) (h : i < l.length) :
    (l.set i r).getD i d = r := by
  simp [List.getD_eq_getElem?_getD, h]

/-- One iteration whose index is inside `pids`: the slot is written, the events
of the iteration are appended, and the image is replaced exactly when `fork`
returned 0 and `execl` did not return. -/
theorem iter_step (env : Env) (i : Nat) (p : Proc) (h : i < p.hd.pids.length) :
    exec_step env i (fork_step env i p) =
      ⟨{ p.hd with pids := p.hd.pids.set i (env.fork i) },
       p.trace ++ iter_events env p.hd.cmds i,
       p.replaced || decide (execs_at env i)⟩ := by
  unfold exec_step fork_step iter_events execs_at
  simp only [getD_set_self _ _ _ _ h]
  by_cases hf : env.fork i = 0
  · simp only [hf, if_true]
    split
    · rename_i he
      simp [he]
    · rename_i r he
      by_cases hr : r = -1
      · simp [he, hr]
      · simp [he, hr]
  · by_cases hm : env.fork i = -1
    · simp [hf, hm]
    · simp [hf, hm]

theorem exec_step_frame (env : Env) (i : Nat) (p : Proc) :
    (exec_step env i p).hd = p.hd := by
  unfold exec_step
  split
  · split <;> rfl
  · rfl

/-- The loop writes no field of the handler state but `pids`, and keeps the
number of slots of `pids`. -/
theorem for_loop_frame (env : Env) (rem : Nat) :
    ∀ (i : Nat) (p : Proc),
      (for_loop env rem i p).hd.cmds = p.hd.cmds ∧
      (for_loop env rem i p).hd.ncmds = p.hd.ncmds ∧
      (for_loop env rem i p).hd.pids.length = p.hd.pids.length := by
  induction rem with
  | zero => intro i p; simp [for_loop]
  | succ rem ih =>
    intro i p
    have hstep : (exec_step env i (fork_step env i p)).hd.cmds = p.hd.cmds ∧
        (exec_step env i (fork_step env i p)).hd.ncmds = p.hd.ncmds ∧
        (exec_step env i (fork_step env i p)).hd.pids.length = p.hd.pids.length := by
      rw [exec_step_frame]
      simp [fork_step]
    simp only [for_loop]
    split
    · exact hstep
    · obtain ⟨h1, h2, h3⟩ := ih (i + 1) (exec_step env i (fork_step env i p))
      exact ⟨h1.trans hstep.1, h2.trans hstep.2.1, h3.trans hstep.2.2⟩

/-- A stretch of iterations none of which replaces the image: every iteration
runs, and the trace grows by the events of each, in order. -/
theorem for_loop_runs (env : Env) (rem : Nat) :
    ∀ (i : Nat) (p : Proc), p.replaced = false → i + rem ≤ p.hd.pids.length →
      (∀ j, i ≤ j → j < i + rem → ¬ execs_at env j) →
      (for_loop env rem i p).trace =
          p.trace ++ (List.range' i rem).flatMap (iter_events env p.hd.cmds) ∧
      (for_loop env rem i p).replaced = false := by
  induction rem with
  | zero => intro i p hp _ _; simp [for_loop, hp]
  | succ rem ih =>
    intro i p hp hlen hno
    have hi : i < p.hd.pids.length := by omega
    have hnoi : ¬ execs_at env i := hno i (le_refl i) (by omega)
    simp only [for_loop, iter_step env i p hi, hp, hnoi, decide_False, Bool.or_self]
    have := ih (i + 1) ⟨{ p.hd with pids := p.hd.pids.set i (env.fork i) },
       p.trace ++ iter_events env p.hd.cmds i, false⟩ rfl (by simp; omega)
       (fun j h1 h2 => hno j (by omega) (by omega))
    simp only [Bool.false_eq_true, if_false]
    refine ⟨?_, this.2⟩
    rw [this.1]
    simp [List.range'_succ, List.append_assoc]

/-- A stretch of iterations of which iteration `k` is the first to replace the
image: the iterations before `k` run in full, iteration `k` ends with the
`execl` that does not return, and nothing follows. -/
theorem for_loop_execs (env : Env) (rem : Nat) :
    ∀ (i k : Nat) (p : Proc), p.replaced = false → i + rem ≤ p.hd.pids.length →
      i ≤ k → k < i + rem → (∀ j, i ≤ j → j < k → ¬ execs_at env j) → execs_at env k →
      (for_loop env rem i p).trace =
          p.trace ++ (List.range' i (k - i)).flatMap (iter_events env p.hd.cmds) ++
            iter_events env p.hd.cmds k ∧
      (for_loop env rem i p).replaced = true := by
  induction rem with
  | zero => intro i k p _ _ h1 h2; omega
  | succ rem ih =>
    intro i k p hp hlen hik hk hno hex
    have hi : i < p.hd.pids.length := by omega
    by_cases hki : k = i
    · subst hki
      simp [for_loop, iter_step env k p hi, hp, hex]
    · have hnoi : ¬ execs_at env i := hno i (le_refl i) (by omega)
      simp only [for_loop, iter_step env i p hi, hp, hnoi, decide_False, Bool.or_self]
      have := ih (i + 1) k ⟨{ p.hd with pids := p.hd.pids.set i (env.fork i) },
         p.trace ++ iter_events env p.hd.cmds i, false⟩ rfl (by simp; omega)
         (by omega) (by omega) (fun j h1 h2 => hno j (by omega) h2) hex
      simp only [Bool.false_eq_true, if_false]
      refine ⟨?_, this.2⟩
      rw [this.1]
      have hk' : k - i = (k - (i + 1)) + 1 := by omega
      rw [hk']
      simp [List.range'_succ, List.append_assoc]


/-! ## Lemmas on `request_cb` -/

/-- The shortcut of line 85 (`if (hd->ncmds == 0) goto respond;`) agrees with the
loop, which runs no iteration then. -/
theorem request_cb_post (env : Env) (hd : handler_data) :
    request_cb env hd "POST" =
      if (for_loop env hd.ncmds.toNat 0 ⟨hd, [], false⟩).replaced then
        ⟨none, (for_loop env hd.ncmds.toNat 0 ⟨hd, [], false⟩).hd,
          (for_loop env hd.ncmds.toNat 0 ⟨hd, [], false⟩).trace⟩
      else
        ⟨some MHD_YES, (for_loop env hd.ncmds.toNat 0 ⟨hd, [], false⟩).hd,
          (for_loop env hd.ncmds.toNat 0 ⟨hd, [], false⟩).trace ++ respond env⟩ := by
  unfold request_cb
  by_cases h0 : hd.ncmds = 0
  · simp [h0, for_loop]
  · simp [h0]

theorem wf_bound (hd : handler_data) (hwf : hd.wf) : hd.ncmds.toNat ≤ hd.pids.length := by
  obtain ⟨_, h2, h3⟩ := hwf
  rw [h2]
  unfold NSLOTS at *
  omega

theorem lt_toNat_iff (n : Int) (j : Nat) : j < n.toNat ↔ (j : Int) < n := by
  omega

/-- A POST in a process in which no iteration replaces the image: every
iteration runs, then the response is queued and `MHD_YES` returned. -/
theorem request_cb_runs (env : Env) (hd : handler_data) (hwf : hd.wf)
    (hno : ∀ j : Nat, (j : Int) < hd.ncmds → ¬ execs_at env j) :
    (request_cb env hd "POST").ret = some MHD_YES ∧
    (request_cb env hd "POST").trace =
      (List.range hd.ncmds.toNat).flatMap (iter_events env hd.cmds) ++ respond env := by
  have h := for_loop_runs env hd.ncmds.toNat 0 ⟨hd, [], false⟩ rfl
    (by simpa using wf_bound hd hwf)
    (fun j _ h2 => hno j ((lt_toNat_iff _ _).1 (by simpa using h2)))
  rw [request_cb_post]
  simp [h.2, h.1, List.range_eq_range']

/-- A POST in a process in which iteration `k` is the first to replace the
image: the trace ends with the `execl` of iteration `k` and the function does
not return. -/
theorem request_cb_execs (env : Env) (hd : handler_data) (hwf : hd.wf) (k : Nat)
    (hk : (k : Int) < hd.ncmds) (hno : ∀ j : Nat, j < k → ¬ execs_at env j)
    (hex : execs_at env k) :
    (request_cb env hd "POST").ret = none ∧
    (request_cb env hd "POST").trace =
      (List.range k).flatMap (iter_events env hd.cmds) ++ iter_events env hd.cmds k := by
  have h := for_loop_execs env hd.ncmds.toNat 0 k ⟨hd, [], false⟩ rfl
    (by simpa using wf_bound hd hwf) (Nat.zero_le k)
    (by simpa using (lt_toNat_iff _ _).2 hk) (fun j _ h2 => hno j h2) hex
  rw [request_cb_post]
  simp [h.2, h.1, List.range_eq_range']

/-- Either no iteration below `n` replaces the image, or there is a first one. -/
theorem first_exec (env : Env) (n : Nat) :
    (∀ j, j < n → ¬ execs_at env j) ∨
    ∃ k, k < n ∧ execs_at env k ∧ ∀ j, j < k → ¬ execs_at env j := by
  induction n with
  | zero => left; intro j hj; omega
  | succ n ih =>
    rcases ih with h | ⟨k, hk, hex, hno⟩
    · by_cases hn : execs_at env n
      · right; exact ⟨n, by omega, hn, h⟩
      · left
        intro j hj
        by_cases hjn : j = n
        · subst hjn; exact hn
        · exact h j (by omega)
    · right; exact ⟨k, by omega, hex, hno⟩

/-- Every call recorded by a POST is a call of some iteration below `ncmds` or
one of the three calls of the label `respond`. -/
theorem request_cb_events (env : Env) (hd : handler_data) (hwf : hd.wf) (e : Event)
    (he : e ∈ (request_cb env hd "POST").trace) :
    e ∈ respond env ∨ ∃ j : Nat, (j : Int) < hd.ncmds ∧ e ∈ iter_events env hd.cmds j := by
  rcases first_exec env hd.ncmds.toNat with h | ⟨k, hk, hex, hno⟩
  · have hr := request_cb_runs env hd hwf (fun j hj => h j ((lt_toNat_iff _ _).2 hj))
    rw [hr.2, List.mem_append, List.mem_flatMap] at he
    rcases he with ⟨j, hj, hej⟩ | he
    · right; exact ⟨j, (lt_toNat_iff _ _).1 (List.mem_range.1 hj), hej⟩
    · left; exact he
  · have hk' := (lt_toNat_iff _ _).1 hk
    have hr := request_cb_execs env hd hwf k hk' hno hex
    rw [hr.2, List.mem_append, List.mem_flatMap] at he
    right
    rcases he with ⟨j, hj, hej⟩ | he
    · have : j < k := List.mem_range.1 hj
      exact ⟨j, (lt_toNat_iff _ _).1 (by omega), hej⟩
    · exact ⟨k, hk', he⟩

/-- The only `execl` among the events of iteration `j` is the one of a process
to which `fork` returned 0, and it runs `/bin/sh -c` on `cmds[j]`. -/
theorem execl_in_iter (env : Env) (cmds : List String) (i j : Nat) (path : String)
    (args : List String) (r : Option Int)
    (h : Event.execl i path args r ∈ iter_events env cmds j) :
    i = j ∧ env.fork j = 0 ∧ path = "/bin/sh" ∧ args = ["sh", "-c", cmds.getD j ""] ∧
      r = env.execl j := by
  unfold iter_events at h
  by_cases hf : env.fork j = 0
  · by_cases hm : env.execl j = some (-1)
    · simp [hf, hm, -List.getD_eq_getElem?_getD] at h
      obtain ⟨h1, h2, h3, h4⟩ := h
      exact ⟨h1, hf, h2, h3, by rw [h4, hm]⟩
    · simp [hf, hm, -List.getD_eq_getElem?_getD] at h
      obtain ⟨h1, h2, h3, h4⟩ := h
      exact ⟨h1, hf, h2, h3, h4⟩
  · by_cases hm : env.fork j = -1
    · simp [hf, hm] at h
    · simp [hf, hm] at h

/-- In a process to which the `fork` of iteration `j` did not return 0, the
events of the iteration are the `fork` call and its diagnostic. -/
theorem iter_events_spawn (env : Env) (cmds : List String) (j : Nat) (h : env.fork j ≠ 0) :
    iter_events env cmds j = spawn_events env j := by
  simp [iter_events, spawn_events, h]

theorem flatMap_congr_range (f g : Nat → List Event) (i n : Nat)
    (h : ∀ j, i ≤ j → j < i + n → f j = g j) :
    (List.range' i n).flatMap f = (List.range' i n).flatMap g := by
  induction n generalizing i with
  | zero => simp
  | succ n ih =>
    simp only [List.range'_succ, List.flatMap_cons]
    rw [h i (le_refl i) (by omega), ih (i + 1) (fun j h1 h2 => h j (by omega) (by omega))]


/-! ## The request callback -/

theorem filter_map_all {α : Type} (p : Event → Bool) (f : α → Event) (l : List α)
    (h : ∀ x, p (f x) = true) : (l.map f).filter p = l.map f := by
  induction l with
  | nil => rfl
  | cons a t ih => simp [List.filter_cons, h a, ih]

theorem filter_map_none {α : Type} (p : Event → Bool) (f : α → Event) (l : List α)
    (h : ∀ x, p (f x) = false) : (l.map f).filter p = [] := by
  induction l with
  | nil => rfl
  | cons a t ih => simp [List.filter_cons, h a, ih]

/-- In the server process with every `fork` successful, a POST records one
`fork` call per command, in order, then the calls of the label `respond`. -/
theorem request_cb_all_forked (env : Env) (hd : handler_data) (hwf : hd.wf)
    (hpos : ∀ i : Nat, (i : Int) < hd.ncmds → 0 < env.fork i) :
    (request_cb env hd "POST").ret = some MHD_YES ∧
    (request_cb env hd "POST").trace =
      (List.range hd.ncmds.toNat).map (fun i => Event.fork i (env.fork i)) ++ respond env := by
  have hno : ∀ j : Nat, (j : Int) < hd.ncmds → ¬ execs_at env j := by
    intro j hj hex
    have := hpos j hj
    rw [hex.1] at this
    exact absurd this (by decide)
  have h := request_cb_runs env hd hwf hno
  refine ⟨h.1, ?_⟩
  rw [h.2]
  congr 1
  rw [List.range_eq_range']
  have : (List.range' 0 hd.ncmds.toNat).flatMap (iter_events env hd.cmds) =
      (List.range' 0 hd.ncmds.toNat).flatMap (fun i => [Event.fork i (env.fork i)]) := by
    apply flatMap_congr_range
    intro j _ hj
    have hp := hpos j ((lt_toNat_iff _ _).1 (by simpa using hj))
    have h0 : env.fork j ≠ 0 := by omega
    have h1 : env.fork j ≠ -1 := by omega
    simp [iter_events, h0, h1]
  rw [this]
  simp [List.flatMap, List.map_map]
  induction (List.range' 0 hd.ncmds.toNat) with
  | nil => rfl
  | cons a t ih => simp [ih]

/-- C1: for a handler state with `ncmds = n`, `0 ≤ n ≤ 32`, and the method POST,
when every `fork` returns a positive pid, `request_cb` returns `MHD_YES`, its
calls are the `n` calls of `fork` (one per command, in order) followed by the
creation, the queueing with status 200 and the destruction of the response, so
that it calls `fork` exactly `n` times and `MHD_queue_response` exactly once;
for `n = 0` it calls `fork` not at all and still queues the response. -/
theorem request_cb_post_forks_ncmds (env : Env) (hd : handler_data) (hwf : hd.wf)
    (h0 : 0 ≤ hd.ncmds) (hpos : ∀ i : Nat, (i : Int) < hd.ncmds → 0 < env.fork i) :
    (request_cb env hd "POST").ret = some MHD_YES ∧
    (request_cb env hd "POST").trace =
      (List.range hd.ncmds.toNat).map (fun i => Event.fork i (env.fork i)) ++ respond env ∧
    (((request_cb env hd "POST").trace.filter Event.is_fork).length : Int) = hd.ncmds ∧
    (request_cb env hd "POST").trace.filter Event.is_queue =
      [Event.queue_response MHD_HTTP_OK env.response] ∧
    (hd.ncmds = 0 →
      (request_cb env hd "POST").trace.filter Event.is_fork = [] ∧
      (request_cb env hd "POST").trace = respond env ∧
      (request_cb env hd "POST").ret = some MHD_YES) := by
  have h := request_cb_all_forked env hd hwf hpos
  refine ⟨h.1, h.2, ?_, ?_, ?_⟩
  · rw [h.2, List.filter_append, filter_map_all _ _ _ (fun _ => rfl)]
    simp [respond, Event.is_fork, List.filter]
    omega
  · rw [h.2, List.filter_append, filter_map_none _ _ _ (fun _ => rfl)]
    simp [respond, Event.is_queue, List.filter]
  · intro hz
    rw [h.2, hz]
    exact ⟨by simp [respond, Event.is_fork, List.filter], by simp, h.1⟩

/-- Witness of C1: two commands, both forks successful. -/
theorem request_cb_post_forks_ncmds_witness :
    (request_cb env_server hd_two "POST").ret = some MHD_YES ∧
    (request_cb env_server hd_two "POST").trace =
      (List.range hd_two.ncmds.toNat).map (fun i => Event.fork i (env_server.fork i)) ++
        respond env_server ∧
    (((request_cb env_server hd_two "POST").trace.filter Event.is_fork).length : Int) =
      hd_two.ncmds ∧
    (request_cb env_server hd_two "POST").trace.filter Event.is_queue =
      [Event.queue_response MHD_HTTP_OK env_server.response] ∧
    (hd_two.ncmds = 0 →
      (request_cb env_server hd_two "POST").trace.filter Event.is_fork = [] ∧
      (request_cb env_server hd_two "POST").trace = respond env_server ∧
      (request_cb env_server hd_two "POST").ret = some MHD_YES) :=
  request_cb_post_forks_ncmds env_server hd_two (by decide) (by decide)
    (fun i _ => by simp only [env_server]; omega)

/-- C2: for every method other than POST and every handler state, `request_cb`
returns `MHD_NO`, makes no call at all (no `fork`, no `execl`, no
`MHD_queue_response`) and leaves the handler state as it was. -/
theorem request_cb_rejects_other_methods (env : Env) (hd : handler_data) (method : String)
    (h : method ≠ "POST") :
    (request_cb env hd method).ret = some MHD_NO ∧
    (request_cb env hd method).trace = [] ∧
    (request_cb env hd method).hd = hd := by
  simp [request_cb, h]

/-- Witness of C2: the methods `GET` and `post`. -/
theorem request_cb_rejects_other_methods_witness :
    ((request_cb env_server hd_two "GET").ret = some MHD_NO ∧
      (request_cb env_server hd_two "GET").trace = [] ∧
      (request_cb env_server hd_two "GET").hd = hd_two) ∧
    ((request_cb env_server hd_two "post").ret = some MHD_NO ∧
      (request_cb env_server hd_two "post").trace = [] ∧
      (request_cb env_server hd_two "post").hd = hd_two) :=
  ⟨request_cb_rejects_other_methods env_server hd_two "GET" (by decide),
   request_cb_rejects_other_methods env_server hd_two "post" (by decide)⟩

/-- In a process to which no `fork` below `ncmds` returned 0, a POST records
the `fork` calls of all iterations, each with its diagnostic when it failed,
then the calls of the label `respond`, and returns `MHD_YES`. -/
theorem request_cb_server (env : Env) (hd : handler_data) (hwf : hd.wf)
    (hpar : ∀ i : Nat, (i : Int) < hd.ncmds → env.fork i ≠ 0) :
    (request_cb env hd "POST").ret = some MHD_YES ∧
    (request_cb env hd "POST").trace =
      (List.range hd.ncmds.toNat).flatMap (spawn_events env) ++ respond env := by
  have h := request_cb_runs env hd hwf (fun j hj hex => hpar j hj hex.1)
  refine ⟨h.1, ?_⟩
  rw [h.2, List.range_eq_range']
  congr 1
  apply flatMap_congr_range
  intro j _ hj
  exact iter_events_spawn env hd.cmds j (hpar j ((lt_toNat_iff _ _).1 (by simpa using hj)))

/-- The iterations below `n` are those below `k`, iteration `k`, and the later
ones. -/
theorem range_split (k n : Nat) (h : k < n) :
    List.range n = List.range k ++ k :: List.range' (k + 1) (n - (k + 1)) := by
  obtain ⟨d, rfl⟩ : ∃ d, n = k + (d + 1) := ⟨n - (k + 1), by omega⟩
  have hd : k + (d + 1) - (k + 1) = d := by omega
  have happ := List.range'_append_1 0 k (d + 1)
  rw [hd, List.range_eq_range', List.range_eq_range', Nat.add_comm k (d + 1), ← happ,
    List.range'_succ]
  simp

/-- In the process to which the `fork` of iteration `k` is the first to return
0, a POST records the `fork` calls of the iterations before `k`, then the events
of iteration `k`, which begin with the `fork` returning 0 and the `execl` of
`/bin/sh -c cmds[k]`. -/
theorem request_cb_child_starts (env : Env) (hd : handler_data) (hwf : hd.wf) (k : Nat)
    (hk : (k : Int) < hd.ncmds) (hbefore : ∀ i : Nat, i < k → env.fork i ≠ 0)
    (hchild : env.fork k = 0) :
    (List.range k).flatMap (spawn_events env) ++
        [Event.fork k 0, Event.execl k "/bin/sh" ["sh", "-c", hd.cmds.getD k ""] (env.execl k)]
      <+: (request_cb env hd "POST").trace := by
  have hpre : (List.range k).flatMap (iter_events env hd.cmds) =
      (List.range k).flatMap (spawn_events env) := by
    rw [List.range_eq_range']
    apply flatMap_congr_range
    intro j _ hj
    exact iter_events_spawn env hd.cmds j (hbefore j (by omega))
  have hit : ∃ rest, iter_events env hd.cmds k =
      [Event.fork k 0, Event.execl k "/bin/sh" ["sh", "-c", hd.cmds.getD k ""] (env.execl k)]
        ++ rest := by
    refine ⟨if env.execl k = some (-1) then [Event.perror "exec"] else [], ?_⟩
    simp [iter_events, hchild, -List.getD_eq_getElem?_getD]
  obtain ⟨rest, hrest⟩ := hit
  have hno : ∀ j : Nat, j < k → ¬ execs_at env j := fun j hj hex => hbefore j hj hex.1
  by_cases hex : execs_at env k
  · have h := request_cb_execs env hd hwf k hk hno hex
    rw [h.2, hpre, hrest, ← List.append_assoc]
    exact List.prefix_append _ _
  · rcases first_exec env hd.ncmds.toNat with hall | ⟨m, hm, hexm, hnom⟩
    · have h := request_cb_runs env hd hwf (fun j hj => hall j ((lt_toNat_iff _ _).2 hj))
      have hkn : k < hd.ncmds.toNat := (lt_toNat_iff _ _).2 hk
      have hsplit := range_split k hd.ncmds.toNat hkn
      rw [h.2, hsplit, List.flatMap_append, List.flatMap_cons, hpre, hrest]
      simp only [List.append_assoc]
      exact (List.prefix_append_right_inj _).2 (List.prefix_append _ _)
    · have hkm : k < m := by
        rcases Nat.lt_trichotomy k m with h | h | h
        · exact h
        · subst h; exact absurd hexm hex
        · exact absurd hexm.1 (hbefore m h)
      have h := request_cb_execs env hd hwf m ((lt_toNat_iff _ _).1 hm) hnom hexm
      have hsplit := range_split k m hkm
      rw [h.2, hsplit, List.flatMap_append, List.flatMap_cons, hpre, hrest]
      simp only [List.append_assoc]
      exact (List.prefix_append_right_inj _).2 (List.prefix_append _ _)


/-- In a well-formed handler state every index below `ncmds` has a command. -/
theorem wf_cmd (hd : handler_data) (hwf : hd.wf) (k : Nat) (hk : (k : Int) < hd.ncmds) :
    hd.cmds[k]? = some (hd.cmds.getD k "") := by
  obtain ⟨h1, _, h3⟩ := hwf
  have hlt : k < hd.cmds.length := by
    rw [h1]; unfold NSLOTS at *; omega
  simp [List.getD_eq_getElem?_getD, List.getElem?_eq_getElem hlt]

theorem filter_spawn_events (env : Env) (l : List Nat) :
    (l.flatMap (spawn_events env)).filter (fun e => e.is_fork || e.is_queue) =
      l.map (fun i => Event.fork i (env.fork i)) := by
  induction l with
  | nil => rfl
  | cons a t ih =>
    rw [List.flatMap_cons, List.filter_append, ih]
    by_cases h : env.fork a = -1
    · simp [spawn_events, h, Event.is_fork, Event.is_queue, List.filter]
    · simp [spawn_events, h, Event.is_fork, Event.is_queue, List.filter]

theorem not_execl_of_spawn (env : Env) (l : List Nat) (e : Event)
    (h : e ∈ l.flatMap (spawn_events env)) : e.is_execl = false := by
  rw [List.mem_flatMap] at h
  obtain ⟨j, _, hj⟩ := h
  by_cases hm : env.fork j = -1
  · simp [spawn_events, hm] at hj
    rcases hj with rfl | rfl <;> rfl
  · simp [spawn_events, hm] at hj
    subst hj; rfl

/-- C3: for a POST handled in the server process (no `fork` returns 0 to it),
the calls are, in this order, the `fork` for command 0, for command 1, ..., for
command `ncmds - 1` (each followed only by its diagnostic when it failed), and
after the last of them the creation, queueing with status 200 and destruction
of the empty response: among the `fork` and `MHD_queue_response` calls the one
queueing comes last.  The process created in iteration `k`, which saw what the
server saw before `k` and 0 from the `fork` of iteration `k`, calls `execl` of
`/bin/sh` with the arguments `sh`, `-c` and the command `cmds[k]` next. -/
theorem request_cb_spawns_in_order_then_responds (env : Env) (hd : handler_data)
    (hwf : hd.wf) (hpar : ∀ i : Nat, (i : Int) < hd.ncmds → env.fork i ≠ 0) :
    (request_cb env hd "POST").trace =
      (List.range hd.ncmds.toNat).flatMap (spawn_events env) ++ respond env ∧
    (request_cb env hd "POST").trace.filter (fun e => e.is_fork || e.is_queue) =
      (List.range hd.ncmds.toNat).map (fun i => Event.fork i (env.fork i)) ++
        [Event.queue_response MHD_HTTP_OK env.response] ∧
    (∀ (k : Nat) (cenv : Env), (k : Int) < hd.ncmds →
      (∀ i : Nat, i < k → cenv.fork i = env.fork i) → cenv.fork k = 0 →
      ∃ c, hd.cmds[k]? = some c ∧
        (List.range k).flatMap (spawn_events env) ++
            [Event.fork k 0, Event.execl k "/bin/sh" ["sh", "-c", c] (cenv.execl k)]
          <+: (request_cb cenv hd "POST").trace) := by
  have h := request_cb_server env hd hwf hpar
  refine ⟨h.2, ?_, ?_⟩
  · rw [h.2, List.filter_append, filter_spawn_events]
    simp [respond, Event.is_fork, Event.is_queue, List.filter]
  · intro k cenv hk hsame hchild
    refine ⟨hd.cmds.getD k "", wf_cmd hd hwf k hk, ?_⟩
    have hbefore : ∀ i : Nat, i < k → cenv.fork i ≠ 0 := by
      intro i hi
      rw [hsame i hi]
      exact hpar i (by omega)
    have hc := request_cb_child_starts cenv hd hwf k hk hbefore hchild
    have hpre : (List.range k).flatMap (spawn_events cenv) =
        (List.range k).flatMap (spawn_events env) := by
      rw [List.range_eq_range']
      apply flatMap_congr_range
      intro j _ hj
      simp [spawn_events, hsame j (by omega)]
    rw [hpre] at hc
    exact hc

/-- Witness of C3: the two commands of `hd_two`, the server `env_server` and the
process created in iteration 0. -/
theorem request_cb_spawns_in_order_then_responds_witness :
    (request_cb env_server hd_two "POST").trace =
      [Event.fork 0 100, Event.fork 1 101, Event.create_response 0 (some 1),
       Event.queue_response 200 (some 1), Event.destroy_response (some 1)] ∧
    [Event.fork 0 0, Event.execl 0 "/bin/sh" ["sh", "-c", "git pull"] none]
      <+: (request_cb env_child hd_two "POST").trace := by
  have h := request_cb_spawns_in_order_then_responds env_server hd_two (by decide)
    (fun i _ => by simp only [env_server]; omega)
  refine ⟨h.1.trans (by decide), ?_⟩
  obtain ⟨c, hc, hpre⟩ := h.2.2 0 env_child (by decide) (fun i hi => absurd hi (by omega)) rfl
  have hc' : c = "git pull" := by
    have : hd_two.cmds[0]? = some "git pull" := rfl
    rw [this] at hc
    exact (Option.some.inj hc).symm
  subst hc'
  exact hpre

/-- C4: for a POST in the server process, whatever the `fork` calls return, if
the `fork` for command `i` returns -1 then no `execl` is called for command `i`
(in any process in which that call returned -1), the server calls `execl` not
at all, it still calls `fork` for every later command `i+1 .. ncmds-1`, queues
the response with status 200 and returns `MHD_YES`. -/
theorem request_cb_fork_failure_skips_command (env : Env) (hd : handler_data)
    (hwf : hd.wf) (i : Nat) (hi : (i : Int) < hd.ncmds) (hfail : env.fork i = -1) :
    (∀ path args r, Event.execl i path args r ∉ (request_cb env hd "POST").trace) ∧
    ((∀ j : Nat, (j : Int) < hd.ncmds → env.fork j ≠ 0) →
      (∀ e ∈ (request_cb env hd "POST").trace, e.is_execl = false) ∧
      Event.fork i (-1) ∈ (request_cb env hd "POST").trace ∧
      (∀ j : Nat, i < j → (j : Int) < hd.ncmds →
        Event.fork j (env.fork j) ∈ (request_cb env hd "POST").trace) ∧
      (request_cb env hd "POST").trace.filter Event.is_queue =
        [Event.queue_response MHD_HTTP_OK env.response] ∧
      (request_cb env hd "POST").ret = some MHD_YES) := by
  constructor
  · intro path args r hmem
    rcases request_cb_events env hd hwf _ hmem with hr | ⟨j, _, hj⟩
    · simp [respond] at hr
    · have := execl_in_iter env hd.cmds i j path args r hj
      rw [← this.1, hfail] at this
      exact absurd this.2.1 (by decide)
  · intro hpar
    have h := request_cb_server env hd hwf hpar
    have hfork : ∀ j : Nat, (j : Int) < hd.ncmds →
        Event.fork j (env.fork j) ∈ (request_cb env hd "POST").trace := by
      intro j hj
      rw [h.2, List.mem_append, List.mem_flatMap]
      left
      exact ⟨j, List.mem_range.2 ((lt_toNat_iff _ _).2 hj), by simp [spawn_events]⟩
    refine ⟨?_, ?_, fun j _ hj => hfork j hj, ?_, h.1⟩
    · intro e he
      rw [h.2, List.mem_append] at he
      rcases he with he | he
      · exact not_execl_of_spawn env _ e he
      · simp [respond] at he
        rcases he with rfl | rfl | rfl <;> rfl
    · have := hfork i hi
      rwa [hfail] at this
    · have hq : ∀ l : List Nat,
          (l.flatMap (spawn_events env)).filter Event.is_queue = [] := by
        intro l
        induction l with
        | nil => rfl
        | cons a t ih =>
          rw [List.flatMap_cons, List.filter_append, ih]
          by_cases hm : env.fork a = -1
          · simp [spawn_events, hm, Event.is_queue, List.filter]
          · simp [spawn_events, hm, Event.is_queue, List.filter]
      rw [h.2, List.filter_append, hq]
      simp [respond, Event.is_queue, List.filter]

/-- Witness of C4: the `fork` for the first of two commands fails. -/
theorem request_cb_fork_failure_skips_command_witness :
    (request_cb env_fork_fails hd_two "POST").trace =
      [Event.fork 0 (-1), Event.perror "fork", Event.fork 1 101,
       Event.create_response 0 (some 1), Event.queue_response 200 (some 1),
       Event.destroy_response (some 1)] ∧
    (∀ path args r,
      Event.execl 0 path args r ∉ (request_cb env_fork_fails hd_two "POST").trace) ∧
    (request_cb env_fork_fails hd_two "POST").ret = some MHD_YES := by
  have h := request_cb_fork_failure_skips_command env_fork_fails hd_two (by decide) 0
    (by decide) rfl
  have hpar : ∀ j : Nat, (j : Int) < hd_two.ncmds → env_fork_fails.fork j ≠ 0 := by
    intro j _
    simp only [env_fork_fails]
    split <;> omega
  exact ⟨by decide, h.1, (h.2 hpar).2.2.2.2⟩


/-- A POST never makes `request_cb` return `MHD_NO`: the function either returns
`MHD_YES` or does not return. -/
theorem request_cb_post_ret (env : Env) (hd : handler_data) :
    (request_cb env hd "POST").ret = some MHD_YES ∨ (request_cb env hd "POST").ret = none := by
  rw [request_cb_post]
  split
  · right; rfl
  · left; rfl

/-- C5 as stated fails: with two commands, both forks successful and the
response allocation returning NULL, `request_cb` returns `MHD_YES`, not
`MHD_NO`, after calling `MHD_queue_response` with the null response. -/
theorem request_cb_null_response_returns_yes :
    env_no_memory.response = none ∧
    (request_cb env_no_memory hd_two "POST").ret = some MHD_YES ∧
    (request_cb env_no_memory hd_two "POST").ret ≠ some MHD_NO ∧
    (request_cb env_no_memory hd_two "POST").trace =
      [Event.fork 0 100, Event.fork 1 101, Event.create_response 0 none,
       Event.queue_response 200 none, Event.destroy_response none] := by
  decide

/-- C5, amended: for every POST, if allocating the response fails
(`MHD_create_response_from_buffer` returns NULL), `request_cb` does not return
`MHD_NO` in any process; in the server process it passes the null response to
`MHD_queue_response` and `MHD_destroy_response` as its last three calls and
returns `MHD_YES`. -/
theorem request_cb_allocation_failure_unchecked (env : Env) (hd : handler_data)
    (hwf : hd.wf) (hnull : env.response = none) :
    (request_cb env hd "POST").ret ≠ some MHD_NO ∧
    ((∀ i : Nat, (i : Int) < hd.ncmds → env.fork i ≠ 0) →
      (request_cb env hd "POST").ret = some MHD_YES ∧
      [Event.create_response 0 none, Event.queue_response MHD_HTTP_OK none,
        Event.destroy_response none] <:+ (request_cb env hd "POST").trace) := by
  constructor
  · rcases request_cb_post_ret env hd with h | h
    · rw [h]; decide
    · rw [h]; decide
  · intro hpar
    have h := request_cb_server env hd hwf hpar
    refine ⟨h.1, ?_⟩
    rw [h.2]
    simp only [respond, hnull]
    exact List.suffix_append _ _

/-- Witness of C5, amended: the allocation fails after two successful forks. -/
theorem request_cb_allocation_failure_unchecked_witness :
    (request_cb env_no_memory hd_two "POST").ret ≠ some MHD_NO ∧
    (request_cb env_no_memory hd_two "POST").ret = some MHD_YES ∧
    [Event.create_response 0 none, Event.queue_response MHD_HTTP_OK none,
      Event.destroy_response none] <:+ (request_cb env_no_memory hd_two "POST").trace := by
  have h := request_cb_allocation_failure_unchecked env_no_memory hd_two (by decide) rfl
  exact ⟨h.1, h.2 (fun i _ => by simp only [env_no_memory]; omega)⟩

/-- C9: for every request method and every outcome of `fork` and `execl`,
`request_cb` leaves `ncmds` and the array `cmds` as they were (the only field of
the handler state that may differ afterwards is `pids`), and every `execl` it
calls is for an index `i` below `ncmds`, runs `/bin/sh` and passes `sh`, `-c`
and the configured command `cmds[i]`. -/
theorem request_cb_keeps_registry (env : Env) (hd : handler_data) (method : String)
    (hwf : hd.wf) :
    (request_cb env hd method).hd.ncmds = hd.ncmds ∧
    (request_cb env hd method).hd.cmds = hd.cmds ∧
    (request_cb env hd method).hd = { hd with pids := (request_cb env hd method).hd.pids } ∧
    (∀ i path args r, Event.execl i path args r ∈ (request_cb env hd method).trace →
      (i : Int) < hd.ncmds ∧ path = "/bin/sh" ∧
        ∃ c, hd.cmds[i]? = some c ∧ args = ["sh", "-c", c]) := by
  by_cases hm : method = "POST"
  · subst hm
    have hf := for_loop_frame env hd.ncmds.toNat 0 ⟨hd, [], false⟩
    have hframe : (request_cb env hd "POST").hd.ncmds = hd.ncmds ∧
        (request_cb env hd "POST").hd.cmds = hd.cmds := by
      rw [request_cb_post]
      split
      · exact ⟨hf.2.1, hf.1⟩
      · exact ⟨hf.2.1, hf.1⟩
    refine ⟨hframe.1, hframe.2, ?_, ?_⟩
    · cases hres : (request_cb env hd "POST").hd with
      | mk c p n =>
        rw [hres] at hframe
        obtain ⟨h1, h2⟩ := hframe
        simp only at h1 h2
        subst h1 h2
        rfl
    · intro i path args r hmem
      rcases request_cb_events env hd hwf _ hmem with hr | ⟨j, hj, hej⟩
      · simp [respond] at hr
      · have h := execl_in_iter env hd.cmds i j path args r hej
        obtain ⟨hij, _, hp, ha, _⟩ := h
        subst hij
        exact ⟨hj, hp, hd.cmds.getD i "", wf_cmd hd hwf i hj, ha⟩
  · simp [request_cb, hm]

/-- Witness of C9: a POST in the process created in iteration 0, whose `execl`
fails. -/
theorem request_cb_keeps_registry_witness :
    (request_cb env_child_exec_fails hd_two "POST").hd.ncmds = hd_two.ncmds ∧
    (request_cb env_child_exec_fails hd_two "POST").hd.cmds = hd_two.cmds ∧
    (request_cb env_child_exec_fails hd_two "POST").hd =
      { hd_two with pids := (request_cb env_child_exec_fails hd_two "POST").hd.pids } ∧
    (∀ i path args r,
      Event.execl i path args r ∈ (request_cb env_child_exec_fails hd_two "POST").trace →
      (i : Int) < hd_two.ncmds ∧ path = "/bin/sh" ∧
        ∃ c, hd_two.cmds[i]? = some c ∧ args = ["sh", "-c", c]) :=
  request_cb_keeps_registry env_child_exec_fails hd_two "POST" (by decide)

/-- C10: in the process to which the `fork` for command `k` returned 0 and whose
`execl` fails (returns -1), `request_cb` goes on: after the `execl` and its
diagnostic it calls `fork` for every remaining command `k+1 .. ncmds-1`, then
queues the response with status 200 and returns `MHD_YES`.  So one POST can
create more processes than there are commands: with the two commands of
`hd_two`, every `fork` successful and every `execl` failing, three processes are
created. -/
theorem request_cb_child_survives_failed_exec (env : Env) (hd : handler_data)
    (hwf : hd.wf) (k : Nat) (hk : (k : Int) < hd.ncmds) (hchild : env.fork k = 0)
    (hfail : env.execl k = some (-1))
    (hothers : ∀ j : Nat, (j : Int) < hd.ncmds → j ≠ k → env.fork j ≠ 0) :
    (request_cb env hd "POST").ret = some MHD_YES ∧
    (∃ c, hd.cmds[k]? = some c ∧
      (request_cb env hd "POST").trace =
        (List.range k).flatMap (spawn_events env) ++
          [Event.fork k 0, Event.execl k "/bin/sh" ["sh", "-c", c] (some (-1)),
            Event.perror "exec"] ++
          (List.range' (k + 1) (hd.ncmds.toNat - (k + 1))).flatMap (spawn_events env) ++
          respond env) ∧
    (∀ j : Nat, k < j → (j : Int) < hd.ncmds →
      Event.fork j (env.fork j) ∈ (request_cb env hd "POST").trace) ∧
    (hd_two.ncmds = 2 ∧
      creations world_exec_fails hd_two 3 [] 0 (world_exec_fails []) = 3) := by
  have hkn : k < hd.ncmds.toNat := (lt_toNat_iff _ _).2 hk
  have hno : ∀ j : Nat, (j : Int) < hd.ncmds → ¬ execs_at env j := by
    intro j hj hex
    by_cases hjk : j = k
    · subst hjk
      rw [hex.2] at hfail
      exact absurd hfail (by decide)
    · exact hothers j hj hjk hex.1
  have h := request_cb_runs env hd hwf hno
  have htrace : (request_cb env hd "POST").trace =
      (List.range k).flatMap (spawn_events env) ++
        [Event.fork k 0, Event.execl k "/bin/sh" ["sh", "-c", hd.cmds.getD k ""] (some (-1)),
          Event.perror "exec"] ++
        (List.range' (k + 1) (hd.ncmds.toNat - (k + 1))).flatMap (spawn_events env) ++
        respond env := by
    rw [h.2, range_split k hd.ncmds.toNat hkn, List.flatMap_append, List.flatMap_cons]
    have h1 : (List.range k).flatMap (iter_events env hd.cmds) =
        (List.range k).flatMap (spawn_events env) := by
      rw [List.range_eq_range']
      apply flatMap_congr_range
      intro j _ hj
      exact iter_events_spawn env hd.cmds j
        (hothers j (by omega) (by omega))
    have h2 : (List.range' (k + 1) (hd.ncmds.toNat - (k + 1))).flatMap
          (iter_events env hd.cmds) =
        (List.range' (k + 1) (hd.ncmds.toNat - (k + 1))).flatMap (spawn_events env) := by
      apply flatMap_congr_range
      intro j hj1 hj2
      exact iter_events_spawn env hd.cmds j (hothers j (by omega) (by omega))
    have h3 : iter_events env hd.cmds k =
        [Event.fork k 0, Event.execl k "/bin/sh" ["sh", "-c", hd.cmds.getD k ""] (some (-1)),
          Event.perror "exec"] := by
      simp [iter_events, hchild, hfail, -List.getD_eq_getElem?_getD]
    rw [h1, h2, h3]
    simp only [List.append_assoc]
  refine ⟨h.1, ⟨hd.cmds.getD k "", wf_cmd hd hwf k hk, htrace⟩, ?_, ⟨rfl, by decide⟩⟩
  intro j hkj hj
  rw [htrace]
  simp only [List.mem_append, List.mem_flatMap]
  left; right
  exact ⟨j, by
    rw [List.mem_range']
    exact ⟨j - (k + 1), by omega, by omega⟩, by simp [spawn_events]⟩

/-- Witness of C10: the process created for the first of two commands. -/
theorem request_cb_child_survives_failed_exec_witness :
    (request_cb env_child_exec_fails hd_two "POST").ret = some MHD_YES ∧
    (request_cb env_child_exec_fails hd_two "POST").trace =
      [Event.fork 0 0, Event.execl 0 "/bin/sh" ["sh", "-c", "git pull"] (some (-1)),
       Event.perror "exec", Event.fork 1 101, Event.create_response 0 (some 1),
       Event.queue_response 200 (some 1), Event.destroy_response (some 1)] ∧
    Event.fork 1 101 ∈ (request_cb env_child_exec_fails hd_two "POST").trace := by
  have h := request_cb_child_survives_failed_exec env_child_exec_fails hd_two (by decide) 0
    (by decide) rfl rfl (fun j _ hj => by
      simp only [env_child_exec_fails, if_neg hj]; omega)
  exact ⟨h.1, by decide, h.2.2.1 1 (by omega) (by decide)⟩


/-! ## The serving loop and `main` -/

/-- C6 as stated fails: when `pselect` returns -1 with `errno = EINTR` and
the flag `done` is still false, the loop does not wait again although a further
return of `pselect` is available; it is left with the flag false. -/
theorem serve_leaves_on_eintr_with_flag_clear :
    wait_other_signal.ret = -1 ∧ wait_other_signal.errno = EINTR ∧
    serve [wait_other_signal, wait_ready] false [] =
      some (false, [MainEvent.get_fdset, MainEvent.pselect (-1) EINTR]) := by
  decide

/-- C6, amended: in the serving loop of `main`, whenever `pselect` returns -1
with `errno = EINTR`, the loop is left at once, without a diagnostic, without
running the daemon and without testing the flag `done` again, whether the
handler set the flag during the wait or not; no further wait is made. -/
theorem serve_breaks_on_eintr (w : Wait) (ws : List Wait) (tr : List MainEvent)
    (hret : w.ret = -1) (herr : w.errno = EINTR) :
    serve (w :: ws) false tr =
      some (w.sigint, tr ++ [MainEvent.get_fdset, MainEvent.pselect (-1) EINTR]) := by
  simp [serve, hret, herr]

/-- Witness of C6, amended: an interrupted wait that did not set the flag,
followed by a wait that would report a ready descriptor. -/
theorem serve_breaks_on_eintr_witness :
    serve (wait_other_signal :: [wait_ready]) false [] =
      some (wait_other_signal.sigint,
        [] ++ [MainEvent.get_fdset, MainEvent.pselect (-1) EINTR]) :=
  serve_breaks_on_eintr wait_other_signal [wait_ready] [] rfl rfl

/-- The loop is left as soon as the flag is set or a wait returns -1. -/
theorem serve_ends (ws : List Wait) :
    ∀ (done : Bool) (tr : List MainEvent),
      (done = true ∨ ∃ w ∈ ws, w.sigint = true ∨ w.ret = -1) →
      ∃ x, serve ws done tr = some x := by
  induction ws with
  | nil =>
    intro done tr h
    rcases h with h | ⟨w, hw, _⟩
    · exact ⟨(done, tr), by simp [serve, h]⟩
    · simp at hw
  | cons w ws ih =>
    intro done tr h
    by_cases hd : done = true
    · exact ⟨(done, tr), by simp [serve, hd]⟩
    · by_cases hr : w.ret = -1
      · refine ⟨(w.sigint, tr ++ [MainEvent.get_fdset, MainEvent.pselect w.ret w.errno] ++
          (if w.errno ≠ EINTR then [MainEvent.perror "pselect"] else [])), ?_⟩
        simp [serve, hd, hr]
      · have hnext : w.sigint = true ∨ ∃ w' ∈ ws, w'.sigint = true ∨ w'.ret = -1 := by
          rcases h with h | ⟨w', hw', hcond⟩
          · exact absurd h hd
          · rcases List.mem_cons.1 hw' with rfl | hmem
            · rcases hcond with hs | hr'
              · exact Or.inl hs
              · exact absurd hr' hr
            · exact Or.inr ⟨w', hmem, hcond⟩
        obtain ⟨x, hx⟩ := ih w.sigint
          (tr ++ [MainEvent.get_fdset, MainEvent.pselect w.ret w.errno] ++
            [MainEvent.run_from_select]) hnext
        exact ⟨x, by simp only [serve, hd, hr, Bool.false_eq_true, if_false]; exact hx⟩

theorem popd_exit (env : MainEnv) (dir : Option String) (res : Int) (tr : List MainEvent) :
    (popd env dir res tr).exit = some res := by
  unfold popd
  split
  · split <;> rfl
  · rfl

/-- After a failed setup call the part of `main` from line 168 on exits with
`EXIT_FAILURE`; after a successful setup it exits with `EXIT_SUCCESS` once the
loop is left. -/
theorem serve_phase_exit (env : MainEnv) (c : Config) (tr : List MainEvent) :
    (env.sigaction_ret = -1 ∨ env.sigprocmask_ret = -1 ∨ env.daemon = none →
      (serve_phase env c tr).exit = some EXIT_FAILURE) ∧
    (¬ (env.sigaction_ret = -1 ∨ env.sigprocmask_ret = -1 ∨ env.daemon = none) →
      (env.done0 = true ∨ ∃ w ∈ env.waits, w.sigint = true ∨ w.ret = -1) →
      (serve_phase env c tr).exit = some EXIT_SUCCESS) := by
  unfold serve_phase
  constructor
  · intro h
    by_cases h1 : env.sigaction_ret = -1
    · simp only [h1, if_true, popd_exit]
    · by_cases h2 : env.sigprocmask_ret = -1
      · simp only [h1, h2, if_true, if_false, popd_exit]
      · have h3 : env.daemon = none := by tauto
        simp only [h1, h2, if_false, h3, popd_exit]
  · intro h hends
    have h1 : ¬ env.sigaction_ret = -1 := fun x => h (Or.inl x)
    have h2 : ¬ env.sigprocmask_ret = -1 := fun x => h (Or.inr (Or.inl x))
    have h3 : env.daemon ≠ none := fun x => h (Or.inr (Or.inr x))
    obtain ⟨d, hd⟩ := Option.ne_none_iff_exists'.1 h3
    obtain ⟨x, hx⟩ := serve_ends env.waits env.done0
      (tr ++ [MainEvent.sigaction, MainEvent.sigprocmask, MainEvent.start_daemon c.port]) hends
    simp only [h1, h2, if_false, hd, hx, popd_exit]

/-- C7: once the option loop is through, `main` exits with `EXIT_FAILURE`, which
is not zero, on every setup failure (with a directory given, `open` or `chdir`
returns -1; `sigaction` returns -1; `sigprocmask` returns -1; `MHD_start_daemon`
returns NULL), and it exits with 0 when the setup succeeded and the serving loop
was left after SIGINT set the flag `done`. -/
theorem main_exit_status (env : MainEnv) (hd0 : handler_data) (opts : List Opt)
    (c : Config) (hopts : opt_loop env.atoi opts (config0 hd0) = Except.ok c) :
    (setup_fails env c →
      (main env hd0 opts).exit = some EXIT_FAILURE ∧ EXIT_FAILURE ≠ 0) ∧
    (¬ setup_fails env c → (env.done0 = true ∨ ∃ w ∈ env.waits, w.sigint = true) →
      (main env hd0 opts).exit = some 0) := by
  unfold main setup_fails
  rw [hopts]
  constructor
  · intro h
    refine ⟨?_, by decide⟩
    cases hdir : c.dir with
    | none =>
      have h' : env.sigaction_ret = -1 ∨ env.sigprocmask_ret = -1 ∨ env.daemon = none := by
        rcases h with ⟨hne, _⟩ | h
        · exact absurd hdir hne
        · exact h
      simp only [hdir]
      exact (serve_phase_exit env c []).1 h'
    | some d =>
      simp only [hdir]
      by_cases ho : env.open_ret = -1
      · simp only [ho, if_true]
      · by_cases hc : env.chdir_ret = -1
        · simp only [ho, hc, if_true, if_false]
        · have h' : env.sigaction_ret = -1 ∨ env.sigprocmask_ret = -1 ∨ env.daemon = none := by
            rcases h with ⟨_, h | h⟩ | h
            · exact absurd h ho
            · exact absurd h hc
            · exact h
          simp only [ho, hc, if_false]
          exact (serve_phase_exit env c _).1 h'
  · intro h hsig
    have hends : env.done0 = true ∨ ∃ w ∈ env.waits, w.sigint = true ∨ w.ret = -1 := by
      rcases hsig with h | ⟨w, hw, hs⟩
      · exact Or.inl h
      · exact Or.inr ⟨w, hw, Or.inl hs⟩
    have h' : ¬ (env.sigaction_ret = -1 ∨ env.sigprocmask_ret = -1 ∨ env.daemon = none) :=
      fun x => h (Or.inr x)
    cases hdir : c.dir with
    | none =>
      simp only [hdir]
      exact (serve_phase_exit env c []).2 h' hends
    | some d =>
      have ho : ¬ env.open_ret = -1 := fun x => h (Or.inl ⟨by simp [hdir], Or.inl x⟩)
      have hc : ¬ env.chdir_ret = -1 := fun x => h (Or.inl ⟨by simp [hdir], Or.inr x⟩)
      simp only [hdir, ho, hc, if_false]
      exact (serve_phase_exit env c _).2 h' hends

/-- Witness of C7: a directory and one command are given; with `menv_no_daemon`
the daemon does not start, with `menv_sigint` SIGINT arrives in the second
wait. -/
theorem main_exit_status_witness :
    (main menv_no_daemon hd_none [Opt.dir "/srv", Opt.cmd "make"]).exit = some EXIT_FAILURE ∧
    (main menv_sigint hd_none [Opt.dir "/srv", Opt.cmd "make"]).exit = some 0 := by
  have hopts : ∀ env : MainEnv,
      opt_loop env.atoi [Opt.dir "/srv", Opt.cmd "make"] (config0 hd_none) =
        Except.ok ⟨{ hd_none with cmds := hd_none.cmds.set 0 "make", ncmds := 1 },
          5000, some "/srv", [0]⟩ := fun _ => rfl
  exact ⟨((main_exit_status menv_no_daemon hd_none _ _ (hopts _)).1 (by decide)).1,
    (main_exit_status menv_sigint hd_none _ _ (hopts _)).2 (by decide)
      (Or.inr ⟨⟨-1, EINTR, true⟩, by decide, rfl⟩)⟩


/-! ## The option loop -/

/-- The option loop, when it is not cut short by `exit`, performs one store per
`-e` option, at the successive indices from the initial `ncmds` on, and
increments `ncmds` once per store. -/
theorem opt_loop_stores (atoi : String → Int) (opts : List Opt) :
    ∀ (c c1 : Config), opt_loop atoi opts c = Except.ok c1 →
      c1.hd.ncmds = c.hd.ncmds + count_cmds opts ∧
      c1.stores =
        c.stores ++ (List.range (count_cmds opts)).map (fun (k : Nat) => c.hd.ncmds + (k : Int)) := by
  induction opts with
  | nil =>
    intro c c1 h
    simp only [opt_loop, Except.ok.injEq] at h
    subst h
    simp [count_cmds]
  | cons o os ih =>
    intro c c1 h
    cases o with
    | help => simp [opt_loop, opt_step] at h
    | version => simp [opt_loop, opt_step] at h
    | port a =>
      simp only [opt_loop, opt_step] at h
      simpa [count_cmds] using ih _ c1 h
    | dir a =>
      simp only [opt_loop, opt_step] at h
      simpa [count_cmds] using ih _ c1 h
    | unknown =>
      simp only [opt_loop, opt_step] at h
      simpa [count_cmds] using ih _ c1 h
    | cmd a =>
      simp only [opt_loop, opt_step] at h
      have := ih _ c1 h
      simp only at this
      refine ⟨by rw [this.1]; simp [count_cmds]; ring, ?_⟩
      rw [this.2]
      simp only [count_cmds, List.range_succ_eq_map, List.map_cons, List.map_map,
        List.append_assoc, List.singleton_append, Nat.cast_zero, add_zero]
      congr 2
      apply List.map_congr_left
      intro k _
      simp only [Function.comp, Nat.cast_succ]
      ring

/-- The option loop runs through when no option is `-h` or `-v`. -/
theorem opt_loop_ok (atoi : String → Int) (opts : List Opt) :
    ∀ c : Config, (∀ o ∈ opts, o ≠ Opt.help ∧ o ≠ Opt.version) →
      ∃ c1, opt_loop atoi opts c = Except.ok c1 := by
  induction opts with
  | nil => intro c _; exact ⟨c, rfl⟩
  | cons o os ih =>
    intro c h
    have ho := h o (List.mem_cons_self _ _)
    have hos : ∀ o' ∈ os, o' ≠ Opt.help ∧ o' ≠ Opt.version :=
      fun o' ho' => h o' (List.mem_cons_of_mem _ ho')
    cases o with
    | help => exact absurd rfl ho.1
    | version => exact absurd rfl ho.2
    | port a => simpa only [opt_loop, opt_step] using ih _ hos
    | dir a => simpa only [opt_loop, opt_step] using ih _ hos
    | unknown => simpa only [opt_loop, opt_step] using ih _ hos
    | cmd a => simpa only [opt_loop, opt_step] using ih _ hos

theorem count_cmds_replicate (n : Nat) (a : String) :
    count_cmds (List.replicate n (Opt.cmd a)) = n := by
  induction n with
  | zero => rfl
  | succ n ih => simp [List.replicate_succ, count_cmds, ih]

/-- With at most 32 `-e` options every store of the option loop of `main` is
inside the 32 slots of `cmds` and the registered count is at most 32. -/
theorem opt_loop_within_capacity (atoi : String → Int) (hd0 : handler_data)
    (opts : List Opt) (c : Config) (h : opt_loop atoi opts (config0 hd0) = Except.ok c)
    (hle : count_cmds opts ≤ NSLOTS) :
    c.hd.ncmds = count_cmds opts ∧ c.hd.ncmds ≤ (NSLOTS : Int) ∧
    ∀ k ∈ c.stores, 0 ≤ k ∧ k < (NSLOTS : Int) := by
  have hs := opt_loop_stores atoi opts (config0 hd0) c h
  simp only [config0, zero_add, List.nil_append] at hs
  refine ⟨hs.1, by rw [hs.1]; exact_mod_cast hle, ?_⟩
  intro k hk
  rw [hs.2, List.mem_map] at hk
  obtain ⟨j, hj, rfl⟩ := hk
  have hj' : j < count_cmds opts := List.mem_range.1 hj
  constructor
  · exact Int.natCast_nonneg j
  · have : j < NSLOTS := by omega
    exact_mod_cast this

/-- C8 fails on the code: given 33 options `-e`, the option loop of `main`
runs through, performs a store `hd.cmds[32] = ...`, which is outside the 32
slots of `cmds` (indices 0 to 31), and leaves `ncmds = 33`. -/
theorem opt_loop_overruns_cmds (atoi : String → Int) (hd0 : handler_data) (a : String) :
    ∃ c, opt_loop atoi (List.replicate 33 (Opt.cmd a)) (config0 hd0) = Except.ok c ∧
      c.hd.ncmds = 33 ∧ (NSLOTS : Int) < c.hd.ncmds ∧
      (32 : Int) ∈ c.stores ∧ ¬ ((32 : Int) < (NSLOTS : Int)) := by
  obtain ⟨c, hc⟩ := opt_loop_ok atoi (List.replicate 33 (Opt.cmd a)) (config0 hd0)
    (fun o ho => by
      rw [List.eq_of_mem_replicate ho]
      exact ⟨by simp, by simp⟩)
  have hs := opt_loop_stores atoi _ (config0 hd0) c hc
  rw [count_cmds_replicate] at hs
  simp only [config0, zero_add, List.nil_append] at hs
  refine ⟨c, hc, hs.1, by rw [hs.1]; decide, ?_, by decide⟩
  rw [hs.2, List.mem_map]
  exact ⟨32, List.mem_range.2 (by decide), rfl⟩

/-! ## The process count agrees with the callback when `execl` succeeds -/

theorem created_at_append (l1 l2 : List Event) :
    created_at (l1 ++ l2) = created_at l1 ++ created_at l2 := by
  induction l1 with
  | nil => rfl
  | cons e t ih =>
    cases e with
    | fork i r =>
      by_cases h : 0 < r
      · simp [created_at, h, ih]
      · simp [created_at, h, ih]
    | perror s => simpa [created_at] using ih
    | execl i p a r => simpa [created_at] using ih
    | create_response s r => simpa [created_at] using ih
    | queue_response s r => simpa [created_at] using ih
    | destroy_response r => simpa [created_at] using ih

/-- When every `fork` succeeds and every `execl` succeeds, the processes
created by one POST are the `ncmds` children of the server and no others. -/
theorem creations_when_exec_succeeds (w : List Nat → Env) (hd : handler_data)
    (hwf : hd.wf) (hfork : ∀ path i, 0 < (w path).fork i)
    (hexec : ∀ path i, (w path).execl i = none) (depth : Nat) :
    creations w hd (depth + 1) [] 0 (w []) = hd.ncmds.toNat := by
  have hroot : (for_loop (w []) (hd.ncmds.toNat - 0) 0 ⟨hd, [], false⟩).trace =
      (List.range' 0 hd.ncmds.toNat).flatMap (iter_events (w []) hd.cmds) := by
    have h := for_loop_runs (w []) hd.ncmds.toNat 0 ⟨hd, [], false⟩ rfl
      (by simpa using wf_bound hd hwf)
      (fun j _ _ hex => by
        have := hfork [] j
        rw [hex.1] at this
        exact absurd this (by decide))
    simpa using h.1
  have hcreated : ∀ (i n : Nat),
      created_at ((List.range' i n).flatMap (iter_events (w []) hd.cmds)) = List.range' i n := by
    intro i n
    induction n generalizing i with
    | zero => rfl
    | succ n ih =>
      rw [List.range'_succ, List.flatMap_cons, created_at_append, ih]
      have hp := hfork [] i
      have h0 : (w []).fork i ≠ 0 := by omega
      have h1 : (w []).fork i ≠ -1 := by omega
      simp [iter_events, h0, h1, created_at, hp]
  have hchild : ∀ j, j ∈ List.range' 0 hd.ncmds.toNat →
      1 + creations w hd depth [j] j (as_child (w [j]) j) = 1 := by
    intro j hj
    have hjn : j < hd.ncmds.toNat := by
      rw [List.mem_range'] at hj
      obtain ⟨i, hi, rfl⟩ := hj
      omega
    cases depth with
    | zero => rfl
    | succ d =>
      have hex : execs_at (as_child (w [j]) j) j := by
        constructor
        · simp [as_child]
        · simp [as_child, hexec]
      have h := for_loop_execs (as_child (w [j]) j) (hd.ncmds.toNat - j) j j ⟨hd, [], false⟩
        rfl (by have := wf_bound hd hwf; simp only; omega) (le_refl j) (by omega)
        (fun i h1 h2 => absurd h2 (by omega)) hex
      have htr : (for_loop (as_child (w [j]) j) (hd.ncmds.toNat - j) j ⟨hd, [], false⟩).trace =
          iter_events (as_child (w [j]) j) hd.cmds j := by
        simpa using h.1
      have hnone : created_at (iter_events (as_child (w [j]) j) hd.cmds j) = [] := by
        have hf : (as_child (w [j]) j).fork j = 0 := by simp [as_child]
        have he : (as_child (w [j]) j).execl j = none := by simp [as_child, hexec]
        simp [iter_events, hf, he, created_at]
      simp [creations, htr, hnone]
  simp only [creations, hroot, hcreated]
  rw [List.map_congr_left hchild]
  simp

end Stooge
